import Mathlib

/-!
Verification of the meshman STL decoding pipeline.

This file gives a shallow embedding of the core of the program:

* `F32` models a Rust `f32` by its raw 32-bit pattern; `floatEq` models the
  IEEE-754 comparison performed by Rust `==` on `f32` (false whenever either
  side is NaN, true for `+0.0 == -0.0` although the bit patterns differ).
* `Vector3D` with `vecEq` (the derived `PartialEq`) and `Vector3D.hashBits`
  (the `Hash` impl, which feeds the three raw bit patterns to the hasher).
* Byte-stream readers model `std::old_io` little-endian reads: a read of `w`
  bytes fails when fewer than `w` bytes remain, consuming what is left.
* `VertexMap` models the `HashMap<Vector3D,usize>`-based deduplicator.
  Lookups model the probe of the 2015-era robin-hood `HashMap`, which
  compares the stored hash before ever calling key equality: the hasher is
  fed the three raw bit words, so a probe reaches a stored key only when
  the bit patterns agree (`keyMatch` = hash gate plus the key
  `PartialEq`).  A `none` result models a Rust panic (`unwrap` of
  `None`).
* `Mesh.read`, `Mesh.read_binary`, `StlFacet.read`, `Vector3D.read` follow
  `src/mesh/lib.rs`; `ScaleOperation.apply` and `TranslateOperation.apply`
  follow `src/main.rs`.
-/

/-- A Rust `f32` value, represented by its raw little-endian bit pattern
(as produced by `transmute::<f32,u32>`). -/
structure F32 where
  bits : Nat
deriving DecidableEq, Repr

/-- The bit pattern of `std::f32::NAN` (0x7FC00000). -/
def nan32 : F32 := ⟨0x7FC00000⟩

/-- IEEE-754 single: NaN iff exponent field is all ones and mantissa nonzero. -/
def F32.isNaN (a : F32) : Bool := (a.bits / 2 ^ 23) % 2 ^ 8 == 255 && a.bits % 2 ^ 23 != 0

/-- IEEE-754 single: zero (of either sign) iff all bits below the sign are 0. -/
def F32.isZero (a : F32) : Bool := a.bits % 2 ^ 31 == 0

/-- Rust `==` on `f32`: false if either operand is NaN; otherwise the values
are equal exactly when the bit patterns agree or both operands are zeros
(`+0.0 == -0.0`). -/
def floatEq (a b : F32) : Bool :=
  !a.isNaN && !b.isNaN && (a.bits == b.bits || (a.isZero && b.isZero))

/-- `Vector3D` from `src/mesh/lib.rs`: three `f32` components. -/
structure Vector3D where
  x : F32
  y : F32
  z : F32
deriving DecidableEq, Repr

/-- The derived `PartialEq for Vector3D`: componentwise `f32` comparison. -/
def vecEq (a b : Vector3D) : Bool :=
  floatEq a.x b.x && floatEq a.y b.y && floatEq a.z b.z

/-- The `Hash for Vector3D` impl: the hasher is fed the raw `u32` bit
patterns of x, y, z in order.  Two vectors feed identical data to the
hasher exactly when this list is equal. -/
def Vector3D.hashBits (v : Vector3D) : List Nat := [v.x.bits, v.y.bits, v.z.bits]

/-- True when some component of `v` is NaN. -/
def hasNaN (v : Vector3D) : Bool := v.x.isNaN || v.y.isNaN || v.z.isNaN

/-- The all-NaN sentinel vector returned by `Vector3D::read` on failure. -/
def nanVec : Vector3D := ⟨nan32, nan32, nan32⟩

/-- Little-endian value of a byte list (first byte least significant),
as assembled by `old_io`'s `read_le_uint_n`. -/
def leVal : List Nat → Nat
  | [] => 0
  | b :: rest => b + 256 * leVal rest

/-- A little-endian read of `w` bytes from the stream.  `old_io` reads the
requested bytes one at a time, so when fewer than `w` bytes remain the read
fails after consuming everything that was left. -/
def readLeNat (w : Nat) (s : List Nat) : Option Nat × List Nat :=
  if w ≤ s.length then (some (leVal (s.take w)), s.drop w) else (none, [])

/-- `Vector3D::read`: three consecutive `read_le_f32` calls; if all three
succeed the assembled vector is returned, otherwise the all-NaN sentinel. -/
def Vector3D.read (s : List Nat) : Vector3D × List Nat :=
  let xr := readLeNat 4 s
  let yr := readLeNat 4 xr.2
  let zr := readLeNat 4 yr.2
  match xr.1, yr.1, zr.1 with
  | some x, some y, some z => (⟨⟨x⟩, ⟨y⟩, ⟨z⟩⟩, zr.2)
  | _, _, _ => (nanVec, zr.2)

/-- `StlFacet` from `src/mesh/lib.rs`: normal, three vertices and the
16-bit attribute field. -/
structure StlFacet where
  n : Vector3D
  v1 : Vector3D
  v2 : Vector3D
  v3 : Vector3D
  abc : Nat
deriving DecidableEq, Repr

/-- `StlFacet::read`: four `Vector3D::read`s followed by `read_le_u16`
whose result is unwrapped — a failed `u16` read panics (`none`). -/
def StlFacet.read (s : List Nat) : Option (StlFacet × List Nat) :=
  let nr := Vector3D.read s
  let v1r := Vector3D.read nr.2
  let v2r := Vector3D.read v1r.2
  let v3r := Vector3D.read v2r.2
  match readLeNat 2 v3r.2 with
  | (some abc, s5) => some (⟨nr.1, v1r.1, v2r.1, v3r.1, abc⟩, s5)
  | (none, _) => none

/-- The probe-time key test of the program's `HashMap`: the map stores the
hash of every key and compares it before calling `eq` on a probe.  The
hasher input for `Vector3D` is exactly the three raw bit words
(`hashBits`), so the hash gate is bit-pattern identity, followed by the
derived `PartialEq`.  (A key that is merely `==`-equal with different bit
patterns, such as a differently signed zero, hashes differently and is
never reached.) -/
def keyMatch (k v : Vector3D) : Bool :=
  (k.hashBits == v.hashBits) && vecEq k v

/-- `VertexMap`: the `HashMap<Vector3D,usize>` modelled as the list of its
entries in insertion order.  Lookups resolve a probe `v` against a stored
key `k` with `keyMatch k v`. -/
structure VertexMap where
  entries : List (Vector3D × Nat)
deriving DecidableEq, Repr

/-- `VertexMap::new`. -/
def VertexMap.new : VertexMap := ⟨[]⟩

/-- `VertexMap::len`: number of entries of the backing map. -/
def VertexMap.len (m : VertexMap) : Nat := m.entries.length

/-- `HashMap::contains_key`: some stored key passes the probe test. -/
def VertexMap.containsKey (m : VertexMap) (v : Vector3D) : Bool :=
  m.entries.any (fun p => keyMatch p.1 v)

/-- `VertexMap::get`: `self.vertices.get(v3d)`, i.e. the value of the first
entry whose key passes the probe test for `v`; `none` models the `unwrap`
panic when no key is reached. -/
def VertexMap.get (m : VertexMap) (v : Vector3D) : Option Nat :=
  (m.entries.find? (fun p => keyMatch p.1 v)).map (fun p => p.2)

/-- `VertexMap::add`: if the key is present return its index, otherwise
insert it with the next index `len`. -/
def VertexMap.add (m : VertexMap) (v : Vector3D) : Nat × VertexMap :=
  if m.containsKey v then ((m.get v).getD 0, m)
  else (m.len, ⟨m.entries ++ [(v, m.len)]⟩)

/-- `VertexMap::vector`: first pass pushes the keys in iteration order to
size the output, second pass writes each key at its stored index. -/
def VertexMap.vector (m : VertexMap) : List Vector3D :=
  m.entries.foldl (fun acc p => acc.set p.2 p.1) (m.entries.map (fun p => p.1))

/-- `Facet` from `src/mesh/lib.rs`: a triple of vertex indices. -/
structure Facet where
  v1 : Nat
  v2 : Nat
  v3 : Nat
deriving DecidableEq, Repr

/-- `Mesh` from `src/mesh/lib.rs`. -/
structure Mesh where
  vertices : List Vector3D
  facets : List Facet
deriving DecidableEq, Repr

/-- `Mesh::indexed_vertices`: for each facet look up all three vertices in
the map (each lookup is unwrapped, so a miss panics: `none`). -/
def indexed_vertices : List StlFacet → VertexMap → Option (List Facet)
  | [], _ => some []
  | f :: rest, vm =>
    match vm.get f.v1, vm.get f.v2, vm.get f.v3 with
    | some i1, some i2, some i3 =>
      match indexed_vertices rest vm with
      | some tail => some (⟨i1, i2, i3⟩ :: tail)
      | none => none
    | _, _, _ => none

/-- `Mesh::new_from_stl`: vertices from `vector()`, facets from
`indexed_vertices`. -/
def Mesh.new_from_stl (fv : List StlFacet) (vm : VertexMap) : Option Mesh :=
  match indexed_vertices fv vm with
  | some fs => some ⟨vm.vector, fs⟩
  | none => none

/-- The facet loop of `Mesh::read_binary`: read a facet, `add` its three
vertices to the deduplicator, accumulate the facet, repeat `count` times. -/
def readFacets : Nat → List Nat → VertexMap → Option (List StlFacet × VertexMap × List Nat)
  | 0, s, vm => some ([], vm, s)
  | n + 1, s, vm =>
    match StlFacet.read s with
    | none => none
    | some (f, s1) =>
      let vm1 := (vm.add f.v1).2
      let vm2 := (vm1.add f.v2).2
      let vm3 := (vm2.add f.v3).2
      match readFacets n s1 vm3 with
      | none => none
      | some (fs, vmEnd, sEnd) => some (f :: fs, vmEnd, sEnd)

/-- `Mesh::read_binary`: a `u32` facet count (0 when the read fails), the
facet loop, then `new_from_stl`. -/
def Mesh.read_binary (s : List Nat) : Option Mesh :=
  let cr := readLeNat 4 s
  let count := cr.1.getD 0
  match readFacets count cr.2 VertexMap.new with
  | none => none
  | some (fs, vm, _) => Mesh.new_from_stl fs vm

/-- Whether a byte is a UTF-8 continuation byte (0x80–0xBF). -/
def utf8Cont (b : Nat) : Bool := 128 ≤ b && b ≤ 191

/-- UTF-8 validity of a byte list, as checked by `String::from_utf8`
(excludes overlong encodings, surrogates and code points above 0x10FFFF). -/
def validUtf8 : List Nat → Bool
  | [] => true
  | b :: rest =>
    if b ≤ 127 then validUtf8 rest
    else if b < 194 then false
    else if b ≤ 223 then
      match rest with
      | c1 :: r => utf8Cont c1 && validUtf8 r
      | [] => false
    else if b ≤ 239 then
      match rest with
      | c1 :: c2 :: r =>
        (if b == 224 then 160 ≤ c1 && c1 ≤ 191
         else if b == 237 then 128 ≤ c1 && c1 ≤ 159
         else utf8Cont c1) && utf8Cont c2 && validUtf8 r
      | _ => false
    else if b ≤ 244 then
      match rest with
      | c1 :: c2 :: c3 :: r =>
        (if b == 240 then 144 ≤ c1 && c1 ≤ 191
         else if b == 244 then 128 ≤ c1 && c1 ≤ 143
         else utf8Cont c1) && utf8Cont c2 && utf8Cont c3 && validUtf8 r
      | _ => false
    else false

/-- The UTF-8 bytes of the ASCII sniff prefix `solid` followed by a space. -/
def solidBytes : List Nat := [115, 111, 108, 105, 100, 32]

/-- `Mesh::read`: `r.read(&buf)` on an 80-byte zero-initialized buffer reads
`min 80 (length s)` bytes and only fails on an empty stream (yielding the
empty mesh).  The buffer is then decoded as UTF-8 (`unwrap` panics on
invalid bytes: `none`), sniffed for the ASCII prefix (the ASCII reader is a
stub returning `Mesh::new()`), else the binary reader runs on the rest. -/
def Mesh.read (s : List Nat) : Option Mesh :=
  match s with
  | [] => some ⟨[], []⟩
  | _ :: _ =>
    let taken := s.take 80
    let buf := taken ++ List.replicate (80 - taken.length) 0
    if validUtf8 buf then
      if solidBytes.isPrefixOf buf then some ⟨[], []⟩
      else Mesh.read_binary (s.drop 80)
    else none

/-- `ScaleOperation::apply` from `src/main.rs`: builds `rot = Vec3::new(v)`
and maps `rot.rotate(&v3)` over the vertex positions (the `Vec3` ↔
`Vector3D` conversions are componentwise identities), keeping the facets
(`Mesh::new_from_parts(v3s, mesh.facets)`).  `rotate` is nalgebra's
`Vec3::rotate`, an external dependency, taken here as a parameter. -/
def ScaleOperation.apply (rotate : Vector3D → Vector3D → Vector3D)
    (v : Vector3D) (mesh : Mesh) : Mesh :=
  ⟨mesh.vertices.map (fun p => rotate v p), mesh.facets⟩

/-- `TranslateOperation::apply` from `src/main.rs`: the body is the same
line-for-line as `ScaleOperation::apply` — `rot = Vec3::new(v)` followed by
a map of `rot.rotate(&v3)` over the vertices, facets passed through. -/
def TranslateOperation.apply (rotate : Vector3D → Vector3D → Vector3D)
    (v : Vector3D) (mesh : Mesh) : Mesh :=
  ⟨mesh.vertices.map (fun p => rotate v p), mesh.facets⟩

/-- The `f32` at byte offset `i` of a record. -/
def f32At (bs : List Nat) (i : Nat) : F32 := ⟨leVal ((bs.drop i).take 4)⟩

/-- The `Vector3D` at byte offset `i` of a record. -/
def vecAt (bs : List Nat) (i : Nat) : Vector3D :=
  ⟨f32At bs i, f32At bs (i + 4), f32At bs (i + 8)⟩

/-- The `StlFacet` denoted by a 50-byte binary record. -/
def parseFacet (bs : List Nat) : StlFacet :=
  ⟨vecAt bs 0, vecAt bs 12, vecAt bs 24, vecAt bs 36, leVal ((bs.drop 48).take 2)⟩

/-- The deduplicator state after the facet loop has added the vertices of
the facets of the given records, in order, starting from `vm`. -/
def loopVM (recs : List (List Nat)) (vm : VertexMap) : VertexMap :=
  recs.foldl
    (fun m r => (((m.add (parseFacet r).v1).2.add (parseFacet r).v2).2.add (parseFacet r).v3).2)
    vm

/-- The deduplicator states reachable through the public API:
`VertexMap::new` followed by any sequence of `add` calls. -/
inductive Reachable : VertexMap → Prop
  | base : Reachable VertexMap.new
  | step (vm : VertexMap) (v : Vector3D) : Reachable vm → Reachable (vm.add v).2

/-- The structural invariant of the deduplicator: the entry at position `i`
holds index `i` (indices are minted contiguously in insertion order). -/
def WFMap (vm : VertexMap) : Prop :=
  ∀ i (h : i < vm.entries.length), (vm.entries.get ⟨i, h⟩).2 = i

theorem wfmap_getElem (vm : VertexMap) (hw : WFMap vm) (i : Nat)
    (h : i < vm.entries.length) : (vm.entries[i]).2 = i := hw i h


theorem readLeNat_le (w : Nat) (s : List Nat) (h : w ≤ s.length) :
    readLeNat w s = (some (leVal (s.take w)), s.drop w) := by
  simp [readLeNat, h]

theorem readLeNat_lt (w : Nat) (s : List Nat) (h : s.length < w) :
    readLeNat w s = (none, []) := by
  rw [readLeNat, if_neg (by omega)]

theorem vread_success (s : List Nat) (h : 12 ≤ s.length) :
    Vector3D.read s =
      (⟨⟨leVal (s.take 4)⟩, ⟨leVal ((s.drop 4).take 4)⟩, ⟨leVal ((s.drop 8).take 4)⟩⟩,
        s.drop 12) := by
  have h1 : 4 ≤ s.length := by omega
  have h2 : 4 ≤ (s.drop 4).length := by simp; omega
  have h3 : 4 ≤ (s.drop 8).length := by simp; omega
  simp [Vector3D.read, readLeNat_le 4 s h1, readLeNat_le 4 (s.drop 4) h2,
    readLeNat_le 4 (s.drop 8) h3, List.drop_drop]

theorem vread_fail (s : List Nat) (h : s.length < 12) :
    Vector3D.read s = (nanVec, []) := by
  rcases Nat.lt_or_ge s.length 4 with h1 | h1
  · simp [Vector3D.read, readLeNat_lt 4 s h1, readLeNat_lt 4 [] (by simp)]
  · rcases Nat.lt_or_ge s.length 8 with h2 | h2
    · have hx : (s.drop 4).length < 4 := by simp; omega
      simp [Vector3D.read, readLeNat_le 4 s h1, readLeNat_lt 4 (s.drop 4) hx,
        readLeNat_lt 4 [] (by simp)]
    · have hy : 4 ≤ (s.drop 4).length := by simp; omega
      have hz : (s.drop 8).length < 4 := by simp; omega
      simp [Vector3D.read, readLeNat_le 4 s (by omega), readLeNat_le 4 (s.drop 4) hy,
        readLeNat_lt 4 (s.drop 8) hz, List.drop_drop]

set_option maxHeartbeats 1600000 in
theorem sfread_fail (s : List Nat) (h : s.length < 50) :
    StlFacet.read s = none := by
  rcases Nat.lt_or_ge s.length 12 with h1 | h1
  · simp [StlFacet.read, vread_fail s h1, vread_fail [] (by simp),
      readLeNat_lt 2 [] (by simp)]
  · rcases Nat.lt_or_ge s.length 24 with h2 | h2
    · have hx : (s.drop 12).length < 12 := by simp; omega
      simp [StlFacet.read, vread_success s h1, vread_fail (s.drop 12) hx,
        vread_fail [] (by simp), readLeNat_lt 2 [] (by simp)]
    · rcases Nat.lt_or_ge s.length 36 with h3 | h3
      · have hy : 12 ≤ (s.drop 12).length := by simp; omega
        have hx : (s.drop 24).length < 12 := by simp; omega
        simp [StlFacet.read, vread_success s h1, vread_success (s.drop 12) hy,
          vread_fail (s.drop 24) hx, vread_fail [] (by simp),
          readLeNat_lt 2 [] (by simp), List.drop_drop]
      · rcases Nat.lt_or_ge s.length 48 with h4 | h4
        · have hy : 12 ≤ (s.drop 12).length := by simp; omega
          have hz : 12 ≤ (s.drop 24).length := by simp; omega
          have hx : (s.drop 36).length < 12 := by simp; omega
          simp [StlFacet.read, vread_success s h1, vread_success (s.drop 12) hy,
            vread_success (s.drop 24) hz, vread_fail (s.drop 36) hx,
            readLeNat_lt 2 [] (by simp), List.drop_drop]
        · have hy : 12 ≤ (s.drop 12).length := by simp; omega
          have hz : 12 ≤ (s.drop 24).length := by simp; omega
          have hw : 12 ≤ (s.drop 36).length := by simp; omega
          have hu : (s.drop 48).length < 2 := by simp; omega
          simp [StlFacet.read, vread_success s h1, vread_success (s.drop 12) hy,
            vread_success (s.drop 24) hz, vread_success (s.drop 36) hw,
            readLeNat_lt 2 (s.drop 48) hu, List.drop_drop]

theorem sfread_success (s : List Nat) (h : 50 ≤ s.length) :
    StlFacet.read s = some (parseFacet s, s.drop 50) := by
  have h1 : 12 ≤ s.length := by omega
  have h2 : 12 ≤ (s.drop 12).length := by simp; omega
  have h3 : 12 ≤ (s.drop 24).length := by simp; omega
  have h4 : 12 ≤ (s.drop 36).length := by simp; omega
  have h5 : 2 ≤ (s.drop 48).length := by simp; omega
  simp [StlFacet.read, vread_success s h1, vread_success (s.drop 12) h2,
    vread_success (s.drop 24) h3, vread_success (s.drop 36) h4,
    readLeNat_le 2 (s.drop 48) h5, parseFacet, vecAt, f32At, List.drop_drop]

theorem parseFacet_append (a b : List Nat) (h : 50 ≤ a.length) :
    parseFacet (a ++ b) = parseFacet a := by
  have e : ∀ i k : Nat, i + k ≤ 50 → ((a ++ b).drop i).take k = (a.drop i).take k := by
    intro i k hik
    rw [List.drop_append_of_le_length (by omega),
      List.take_append_of_le_length (by simp; omega)]
  simp only [parseFacet, vecAt, f32At]
  norm_num
  rw [List.take_append_of_le_length (show (4 : Nat) ≤ a.length by omega),
    e 4 4 (by omega), e 8 4 (by omega), e 12 4 (by omega),
    e 16 4 (by omega), e 20 4 (by omega), e 24 4 (by omega), e 28 4 (by omega),
    e 32 4 (by omega), e 36 4 (by omega), e 40 4 (by omega), e 44 4 (by omega),
    e 48 2 (by omega)]
  exact ⟨⟨rfl, rfl, rfl⟩, ⟨rfl, rfl, rfl⟩, ⟨rfl, rfl, rfl⟩, ⟨rfl, rfl, rfl⟩, rfl⟩

theorem sfread_append (a b : List Nat) (h : a.length = 50) :
    StlFacet.read (a ++ b) = some (parseFacet a, b) := by
  rw [sfread_success _ (by simp [h]), parseFacet_append a b (by omega)]
  rw [List.drop_append_of_le_length (by omega)]
  simp [List.drop_eq_nil_of_le, h]

theorem readFacets_zero (s : List Nat) (vm : VertexMap) :
    readFacets 0 s vm = some ([], vm, s) := rfl

theorem readFacets_succ (n : Nat) (s : List Nat) (vm : VertexMap) :
    readFacets (n + 1) s vm =
      match StlFacet.read s with
      | none => none
      | some (f, s1) =>
        match readFacets n s1 (((vm.add f.v1).2.add f.v2).2.add f.v3).2 with
        | none => none
        | some (fs, vmEnd, sEnd) => some (f :: fs, vmEnd, sEnd) := rfl

theorem loopVM_nil (vm : VertexMap) : loopVM [] vm = vm := rfl

theorem loopVM_cons (a : List Nat) (tl : List (List Nat)) (vm : VertexMap) :
    loopVM (a :: tl) vm =
      loopVM tl ((((vm.add (parseFacet a).v1).2.add (parseFacet a).v2).2.add
        (parseFacet a).v3).2) := rfl

theorem readFacets_flatten (recs : List (List Nat)) (rest : List Nat) (vm : VertexMap)
    (h : ∀ r ∈ recs, r.length = 50) :
    readFacets recs.length (recs.flatten ++ rest) vm =
      some (recs.map parseFacet, loopVM recs vm, rest) := by
  induction recs generalizing vm with
  | nil => rw [List.length_nil, List.flatten_nil, List.nil_append, readFacets_zero, loopVM_nil, List.map_nil]
  | cons a tl ih =>
    have ha : a.length = 50 := h a (by simp)
    have htl : ∀ r ∈ tl, r.length = 50 := fun r hr => h r (by simp [hr])
    rw [List.length_cons, List.flatten_cons, List.append_assoc, readFacets_succ,
      sfread_append a (tl.flatten ++ rest) ha]
    dsimp only
    rw [ih _ htl]
    rw [List.map_cons, loopVM_cons]

theorem vecEq_refl (v : Vector3D) (h : hasNaN v = false) : vecEq v v = true := by
  simp [hasNaN] at h
  obtain ⟨⟨h1, h2⟩, h3⟩ := h
  simp [vecEq, floatEq, h1, h2, h3]

theorem vecEq_nan_right (k v : Vector3D) (h : hasNaN v = true) : vecEq k v = false := by
  by_cases hx : v.x.isNaN
  · simp [vecEq, floatEq, hx]
  · by_cases hy : v.y.isNaN
    · simp [vecEq, floatEq, hy]
    · have hz : v.z.isNaN = true := by
        simp [hasNaN, hx, hy] at h
        exact h
      simp [vecEq, floatEq, hz]

theorem keyMatch_vecEq (k v : Vector3D) (h : keyMatch k v = true) : vecEq k v = true := by
  simp [keyMatch] at h
  exact h.2

theorem keyMatch_refl (v : Vector3D) (h : hasNaN v = false) : keyMatch v v = true := by
  simp [keyMatch, vecEq_refl v h]

theorem keyMatch_nan_right (k v : Vector3D) (h : hasNaN v = true) : keyMatch k v = false := by
  simp [keyMatch, vecEq_nan_right k v h]

theorem contains_iff (vm : VertexMap) (v : Vector3D) :
    vm.containsKey v = true ↔ ∃ p ∈ vm.entries, keyMatch p.1 v = true := by
  simp [VertexMap.containsKey, List.any_eq_true]

theorem add_of_contains (vm : VertexMap) (v : Vector3D) (h : vm.containsKey v = true) :
    vm.add v = ((vm.get v).getD 0, vm) := by
  simp [VertexMap.add, h]

theorem add_of_not_contains (vm : VertexMap) (v : Vector3D) (h : vm.containsKey v = false) :
    vm.add v = (vm.len, ⟨vm.entries ++ [(v, vm.len)]⟩) := by
  simp [VertexMap.add, h]

theorem get_of_contains (vm : VertexMap) (v : Vector3D) (h : vm.containsKey v = true) :
    ∃ i, vm.get v = some i := by
  rw [contains_iff] at h
  obtain ⟨p, hp, he⟩ := h
  have hs : (vm.entries.find? (fun q => keyMatch q.1 v)).isSome :=
    List.find?_isSome.mpr ⟨p, hp, he⟩
  obtain ⟨q, hq⟩ := Option.isSome_iff_exists.mp hs
  exact ⟨q.2, by simp [VertexMap.get, hq]⟩

theorem get_none_of_not_contains (vm : VertexMap) (v : Vector3D)
    (h : vm.containsKey v = false) : vm.get v = none := by
  rw [VertexMap.get, List.find?_eq_none.mpr, Option.map_none']
  intro p hp
  cases hk : keyMatch p.1 v with
  | false => simp [hk]
  | true =>
    have hct : vm.containsKey v = true := (contains_iff vm v).mpr ⟨p, hp, hk⟩
    rw [h] at hct
    cases hct

theorem get_mem (vm : VertexMap) (v : Vector3D) (i : Nat) (h : vm.get v = some i) :
    ∃ p ∈ vm.entries, p.2 = i ∧ keyMatch p.1 v = true := by
  rw [VertexMap.get] at h
  obtain ⟨p, hp, hpi⟩ := Option.map_eq_some'.mp h
  have hpred := List.find?_some hp
  exact ⟨p, List.mem_of_find?_eq_some hp, hpi, by simpa using hpred⟩

theorem mem_entries_add (vm : VertexMap) (w : Vector3D) (p : Vector3D × Nat)
    (hp : p ∈ vm.entries) : p ∈ (vm.add w).2.entries := by
  by_cases hc : vm.containsKey w
  · rw [add_of_contains _ _ hc]; exact hp
  · rw [add_of_not_contains _ _ (by simpa using hc)]
    exact List.mem_append_left _ hp

theorem contains_add (vm : VertexMap) (v w : Vector3D)
    (h : vm.containsKey v = true) : (vm.add w).2.containsKey v = true := by
  rw [contains_iff] at h ⊢
  obtain ⟨p, hp, he⟩ := h
  exact ⟨p, mem_entries_add vm w p hp, he⟩

theorem contains_add_self (vm : VertexMap) (v : Vector3D) (h : hasNaN v = false) :
    (vm.add v).2.containsKey v = true := by
  by_cases hc : vm.containsKey v
  · rw [add_of_contains _ _ hc]; exact hc
  · rw [add_of_not_contains _ _ (by simpa using hc), contains_iff]
    exact ⟨(v, vm.len), by simp, keyMatch_refl v h⟩

theorem wf_new : WFMap VertexMap.new := by
  intro i h
  simp [VertexMap.new] at h

theorem wf_add (vm : VertexMap) (v : Vector3D) (h : WFMap vm) : WFMap (vm.add v).2 := by
  by_cases hc : vm.containsKey v
  · rw [add_of_contains _ _ hc]; exact h
  · rw [add_of_not_contains _ _ (by simpa using hc)]
    intro i hi
    simp only [List.length_append, List.length_singleton] at hi
    rcases Nat.lt_or_ge i vm.entries.length with hlt | hge
    · have e : ((vm.entries ++ [(v, vm.len)]).get ⟨i, by simp; omega⟩) = vm.entries.get ⟨i, hlt⟩ := by
        simp [List.getElem_append_left hlt]
      rw [e]
      exact h i hlt
    · have hieq : i = vm.entries.length := by omega
      subst hieq
      have e : ((vm.entries ++ [(v, vm.len)]).get ⟨vm.entries.length, by simp⟩) = (v, vm.len) := by
        simp
      rw [e]
      simp [VertexMap.len]

theorem wf_loopVM (recs : List (List Nat)) (vm : VertexMap) (h : WFMap vm) :
    WFMap (loopVM recs vm) := by
  induction recs generalizing vm with
  | nil => exact h
  | cons a tl ih =>
    rw [loopVM_cons]
    exact ih _ (wf_add _ _ (wf_add _ _ (wf_add _ _ h)))

theorem foldl_set_length (es : List (Vector3D × Nat)) (acc : List Vector3D) :
    (es.foldl (fun a p => a.set p.2 p.1) acc).length = acc.length := by
  induction es generalizing acc with
  | nil => rfl
  | cons p tl ih => simp [ih]

theorem vector_length (vm : VertexMap) : vm.vector.length = vm.entries.length := by
  rw [VertexMap.vector, foldl_set_length, List.length_map]

theorem set_of_getElem? (l : List Vector3D) (n : Nat) (a : Vector3D)
    (h : l[n]? = some a) : l.set n a = l := by
  induction l generalizing n with
  | nil => simp at h
  | cons x xs ih =>
    cases n with
    | zero =>
      simp at h
      simp [h]
    | succ k =>
      simp at h
      simp [List.set, ih k h]

theorem foldl_set_id (es : List (Vector3D × Nat)) (acc : List Vector3D)
    (h : ∀ p ∈ es, acc[p.2]? = some p.1) :
    es.foldl (fun a p => a.set p.2 p.1) acc = acc := by
  induction es with
  | nil => rfl
  | cons p tl ih =>
    rw [List.foldl_cons, set_of_getElem? acc p.2 p.1 (h p (by simp))]
    exact ih (fun q hq => h q (by simp [hq]))

theorem vector_wf (vm : VertexMap) (h : WFMap vm) :
    vm.vector = vm.entries.map Prod.fst := by
  rw [VertexMap.vector]
  apply foldl_set_id
  intro p hp
  obtain ⟨i, hi, he⟩ := List.mem_iff_getElem.mp hp
  have h2 : p.2 = i := by rw [← he]; exact wfmap_getElem vm h i hi
  rw [h2, List.getElem?_map, List.getElem?_eq_getElem hi, Option.map_some', he]

theorem get_wf_bound (vm : VertexMap) (hw : WFMap vm) (v : Vector3D) (i : Nat)
    (hg : vm.get v = some i) :
    ∃ h : i < vm.entries.length, vecEq (vm.entries[i]).1 v = true := by
  obtain ⟨p, hp, hpi, heq⟩ := get_mem vm v i hg
  obtain ⟨j, hj, hje⟩ := List.mem_iff_getElem.mp hp
  have hji : j = i := by rw [← hpi, ← hje]; exact (wfmap_getElem vm hw j hj).symm
  subst hji
  exact ⟨hj, by rw [hje]; exact keyMatch_vecEq p.1 v heq⟩

/-- None of the three vertex positions of a facet has a NaN component
(the normal is irrelevant: it is never added to the deduplicator). -/
def facetNoNaN (f : StlFacet) : Prop :=
  hasNaN f.v1 = false ∧ hasNaN f.v2 = false ∧ hasNaN f.v3 = false

theorem contains_loopVM (recs : List (List Nat)) (vm : VertexMap) (v : Vector3D)
    (h : vm.containsKey v = true) : (loopVM recs vm).containsKey v = true := by
  induction recs generalizing vm with
  | nil => exact h
  | cons a tl ih =>
    rw [loopVM_cons]
    exact ih _ (contains_add _ _ _ (contains_add _ _ _ (contains_add _ _ _ h)))

theorem loopVM_contains (recs : List (List Nat)) (vm : VertexMap)
    (h : ∀ r ∈ recs, facetNoNaN (parseFacet r)) :
    ∀ r ∈ recs, (loopVM recs vm).containsKey (parseFacet r).v1 = true ∧
      (loopVM recs vm).containsKey (parseFacet r).v2 = true ∧
      (loopVM recs vm).containsKey (parseFacet r).v3 = true := by
  induction recs generalizing vm with
  | nil => intro r hr; simp at hr
  | cons a tl ih =>
    intro r hr
    obtain ⟨hn1, hn2, hn3⟩ := h a (by simp)
    rcases List.mem_cons.mp hr with heq | hmem
    · subst heq
      rw [loopVM_cons]
      refine ⟨?_, ?_, ?_⟩
      · exact contains_loopVM tl _ _
          (contains_add _ _ _ (contains_add _ _ _ (contains_add_self _ _ hn1)))
      · exact contains_loopVM tl _ _
          (contains_add _ _ _ (contains_add_self _ _ hn2))
      · exact contains_loopVM tl _ _ (contains_add_self _ _ hn3)
    · rw [loopVM_cons]
      exact ih _ (fun q hq => h q (by simp [hq])) r hmem

theorem readFacets_wf (n : Nat) (s : List Nat) (vm : VertexMap)
    (fs : List StlFacet) (vm2 : VertexMap) (s2 : List Nat)
    (h : readFacets n s vm = some (fs, vm2, s2)) (hw : WFMap vm) : WFMap vm2 := by
  induction n generalizing s vm fs with
  | zero =>
    rw [readFacets_zero] at h
    simp only [Option.some.injEq, Prod.mk.injEq] at h
    rw [← h.2.1]
    exact hw
  | succ k ih =>
    rw [readFacets_succ] at h
    cases hsf : StlFacet.read s with
    | none => rw [hsf] at h; simp at h
    | some fr =>
      rw [hsf] at h
      cases hrf : readFacets k fr.2 (((vm.add fr.1.v1).2.add fr.1.v2).2.add fr.1.v3).2 with
      | none =>
        rw [show (fr = (fr.1, fr.2)) from rfl] at h
        dsimp only at h
        rw [hrf] at h
        simp at h
      | some out =>
        rw [show (fr = (fr.1, fr.2)) from rfl] at h
        dsimp only at h
        rw [hrf] at h
        rw [show (out = (out.1, out.2.1, out.2.2)) from rfl] at h
        dsimp only at h
        simp only [Option.some.injEq, Prod.mk.injEq] at h
        have hres := ih fr.2 (((vm.add fr.1.v1).2.add fr.1.v2).2.add fr.1.v3).2 out.1
          (by rw [hrf, ← h.2.1, ← h.2.2])
          (wf_add _ _ (wf_add _ _ (wf_add _ _ hw)))
        exact hres

theorem indexed_nil (vm : VertexMap) : indexed_vertices [] vm = some [] := rfl

theorem indexed_cons (f : StlFacet) (tl : List StlFacet) (vm : VertexMap) :
    indexed_vertices (f :: tl) vm =
      match vm.get f.v1, vm.get f.v2, vm.get f.v3 with
      | some i1, some i2, some i3 =>
        match indexed_vertices tl vm with
        | some tail => some (⟨i1, i2, i3⟩ :: tail)
        | none => none
      | _, _, _ => none := rfl

theorem indexed_some (fs : List StlFacet) (vm : VertexMap)
    (h : ∀ f ∈ fs, vm.containsKey f.v1 = true ∧ vm.containsKey f.v2 = true ∧
      vm.containsKey f.v3 = true) :
    ∃ l, indexed_vertices fs vm = some l ∧
      List.Forall₂ (fun fac sf => vm.get sf.v1 = some fac.v1 ∧
        vm.get sf.v2 = some fac.v2 ∧ vm.get sf.v3 = some fac.v3) l fs := by
  induction fs with
  | nil => exact ⟨[], rfl, List.Forall₂.nil⟩
  | cons f tl ih =>
    obtain ⟨h1, h2, h3⟩ := h f (by simp)
    obtain ⟨i1, hg1⟩ := get_of_contains vm f.v1 h1
    obtain ⟨i2, hg2⟩ := get_of_contains vm f.v2 h2
    obtain ⟨i3, hg3⟩ := get_of_contains vm f.v3 h3
    obtain ⟨l, hl, hfa⟩ := ih (fun g hg => h g (by simp [hg]))
    refine ⟨⟨i1, i2, i3⟩ :: l, ?_, List.Forall₂.cons ⟨hg1, hg2, hg3⟩ hfa⟩
    rw [indexed_cons, hg1, hg2, hg3, hl]

theorem indexed_mem (fs : List StlFacet) (vm : VertexMap) (l : List Facet)
    (h : indexed_vertices fs vm = some l) (fac : Facet) (hm : fac ∈ l) :
    ∃ sf : StlFacet, vm.get sf.v1 = some fac.v1 ∧ vm.get sf.v2 = some fac.v2 ∧
      vm.get sf.v3 = some fac.v3 := by
  induction fs generalizing l with
  | nil =>
    rw [indexed_nil] at h
    simp only [Option.some.injEq] at h
    rw [← h] at hm
    simp at hm
  | cons f tl ih =>
    rw [indexed_cons] at h
    cases hg1 : vm.get f.v1 with
    | none => rw [hg1] at h; simp at h
    | some i1 =>
      rw [hg1] at h
      cases hg2 : vm.get f.v2 with
      | none => rw [hg2] at h; simp at h
      | some i2 =>
        rw [hg2] at h
        cases hg3 : vm.get f.v3 with
        | none => rw [hg3] at h; simp at h
        | some i3 =>
          rw [hg3] at h
          cases hiv : indexed_vertices tl vm with
          | none => rw [hiv] at h; simp at h
          | some tail =>
            rw [hiv] at h
            simp only [Option.some.injEq] at h
            rw [← h] at hm
            rcases List.mem_cons.mp hm with heq | hmem
            · subst heq
              exact ⟨f, hg1, hg2, hg3⟩
            · exact ih tail hiv hmem

/-- A decoded facet corresponds to a raw STL facet when each of its three
indices is in bounds and resolves to a vertex position equal (under the
program's `f32` equality) to the raw facet's vertex. -/
def facetMatches (m : Mesh) (fac : Facet) (sf : StlFacet) : Prop :=
  ∃ (h1 : fac.v1 < m.vertices.length) (h2 : fac.v2 < m.vertices.length)
    (h3 : fac.v3 < m.vertices.length),
    vecEq (m.vertices.get ⟨fac.v1, h1⟩) sf.v1 = true ∧
    vecEq (m.vertices.get ⟨fac.v2, h2⟩) sf.v2 = true ∧
    vecEq (m.vertices.get ⟨fac.v3, h3⟩) sf.v3 = true

theorem vector_get_vecEq (vm : VertexMap) (hw : WFMap vm) (v : Vector3D) (i : Nat)
    (hg : vm.get v = some i) :
    ∃ h : i < vm.vector.length, vecEq (vm.vector.get ⟨i, h⟩) v = true := by
  obtain ⟨hlt, he⟩ := get_wf_bound vm hw v i hg
  have hlen : i < vm.vector.length := by rw [vector_length]; exact hlt
  refine ⟨hlen, ?_⟩
  have hv : vm.vector.get ⟨i, hlen⟩ = (vm.entries[i]).1 := by
    simp [vector_wf vm hw, List.get_eq_getElem, List.getElem_map]
  rw [hv]
  exact he

theorem read_binary_records (cb : List Nat) (recs : List (List Nat))
    (hc4 : cb.length = 4) (hcv : leVal cb = recs.length)
    (hlen : ∀ r ∈ recs, r.length = 50)
    (hnn : ∀ r ∈ recs, facetNoNaN (parseFacet r)) :
    ∃ m, Mesh.read_binary (cb ++ recs.flatten) = some m ∧
      m.facets.length = recs.length ∧
      List.Forall₂ (facetMatches m) m.facets (recs.map parseFacet) := by
  have hre : readLeNat 4 (cb ++ recs.flatten) = (some (leVal cb), recs.flatten) := by
    rw [readLeNat_le 4 _ (by simp [hc4])]
    rw [List.take_append_of_le_length (by omega), List.take_of_length_le (by omega)]
    rw [List.drop_append_of_le_length (by omega), List.drop_eq_nil_of_le (by omega),
      List.nil_append]
  have hloop := readFacets_flatten recs [] VertexMap.new hlen
  rw [List.append_nil] at hloop
  have hwf : WFMap (loopVM recs VertexMap.new) := wf_loopVM recs _ wf_new
  have hcont : ∀ f ∈ recs.map parseFacet,
      (loopVM recs VertexMap.new).containsKey f.v1 = true ∧
      (loopVM recs VertexMap.new).containsKey f.v2 = true ∧
      (loopVM recs VertexMap.new).containsKey f.v3 = true := by
    intro f hf
    obtain ⟨r, hr, hfr⟩ := List.mem_map.mp hf
    rw [← hfr]
    exact loopVM_contains recs VertexMap.new hnn r hr
  obtain ⟨l, hl, hfa⟩ := indexed_some _ _ hcont
  refine ⟨⟨(loopVM recs VertexMap.new).vector, l⟩, ?_, ?_, ?_⟩
  · rw [show ∀ t : List Nat, Mesh.read_binary t =
          match readFacets ((readLeNat 4 t).1.getD 0) (readLeNat 4 t).2 VertexMap.new with
          | none => none
          | some (fs, vm, _) => Mesh.new_from_stl fs vm from fun _ => rfl]
    rw [hre]
    dsimp only
    rw [Option.getD_some, hcv, hloop]
    dsimp only
    rw [Mesh.new_from_stl, hl]
  · have hle := List.Forall₂.length_eq hfa
    simpa using hle
  · refine List.Forall₂.imp ?_ hfa
    intro fac sf hrel
    obtain ⟨hg1, hg2, hg3⟩ := hrel
    obtain ⟨b1, e1⟩ := vector_get_vecEq _ hwf sf.v1 fac.v1 hg1
    obtain ⟨b2, e2⟩ := vector_get_vecEq _ hwf sf.v2 fac.v2 hg2
    obtain ⟨b3, e3⟩ := vector_get_vecEq _ hwf sf.v3 fac.v3 hg3
    exact ⟨b1, b2, b3, e1, e2, e3⟩

theorem mesh_read_ne (s : List Nat) (hs : s ≠ []) :
    Mesh.read s =
      if validUtf8 (s.take 80 ++ List.replicate (80 - (s.take 80).length) 0) then
        if solidBytes.isPrefixOf (s.take 80 ++ List.replicate (80 - (s.take 80).length) 0)
          then some ⟨[], []⟩
          else Mesh.read_binary (s.drop 80)
      else none := by
  cases s with
  | nil => exact absurd rfl hs
  | cons b tl => rfl

theorem read_binary_short (s : List Nat) (h : s.length < 4) :
    Mesh.read_binary s = some ⟨[], []⟩ := by
  rw [show ∀ t : List Nat, Mesh.read_binary t =
        match readFacets ((readLeNat 4 t).1.getD 0) (readLeNat 4 t).2 VertexMap.new with
        | none => none
        | some (fs, vm, _) => Mesh.new_from_stl fs vm from fun _ => rfl]
  rw [readLeNat_lt 4 s h]
  dsimp only
  rw [show Option.getD (none : Option Nat) 0 = 0 from rfl, readFacets_zero]
  dsimp only
  rw [Mesh.new_from_stl, indexed_nil]
  rfl

theorem mesh_read_short_valid (s : List Nat) (hlen : s.length < 80)
    (hv : validUtf8 (s ++ List.replicate (80 - s.length) 0) = true) :
    Mesh.read s = some ⟨[], []⟩ := by
  cases hs : s with
  | nil => rfl
  | cons b tl =>
    rw [← hs]
    have hne : s ≠ [] := by rw [hs]; simp
    have htake : s.take 80 = s := List.take_of_length_le (by omega)
    rw [mesh_read_ne s hne, htake]
    rw [if_pos (by rw [hv])]
    by_cases hp : solidBytes.isPrefixOf (s ++ List.replicate (80 - s.length) 0)
    · rw [if_pos hp]
    · rw [if_neg hp]
      rw [List.drop_eq_nil_of_le (by omega)]
      exact read_binary_short [] (by simp)

theorem read_binary_bound (t : List Nat) (m : Mesh) (h : Mesh.read_binary t = some m) :
    ∀ fac ∈ m.facets, fac.v1 < m.vertices.length ∧ fac.v2 < m.vertices.length ∧
      fac.v3 < m.vertices.length := by
  rw [show ∀ u : List Nat, Mesh.read_binary u =
        match readFacets ((readLeNat 4 u).1.getD 0) (readLeNat 4 u).2 VertexMap.new with
        | none => none
        | some (fs, vm, _) => Mesh.new_from_stl fs vm from fun _ => rfl] at h
  cases hrf : readFacets ((readLeNat 4 t).1.getD 0) (readLeNat 4 t).2 VertexMap.new with
  | none => rw [hrf] at h; simp at h
  | some out =>
    rw [hrf] at h
    rw [show (out = (out.1, out.2.1, out.2.2)) from rfl] at h
    dsimp only at h
    have hwf : WFMap out.2.1 :=
      readFacets_wf ((readLeNat 4 t).1.getD 0) (readLeNat 4 t).2 VertexMap.new
        out.1 out.2.1 out.2.2 (by rw [hrf]) wf_new
    rw [Mesh.new_from_stl] at h
    cases hiv : indexed_vertices out.1 out.2.1 with
    | none => rw [hiv] at h; simp at h
    | some l =>
      rw [hiv] at h
      simp only [Option.some.injEq] at h
      intro fac hm
      rw [← h] at hm
      dsimp only at hm
      obtain ⟨sf, hg1, hg2, hg3⟩ := indexed_mem out.1 out.2.1 l hiv fac hm
      obtain ⟨b1, _⟩ := get_wf_bound _ hwf _ _ hg1
      obtain ⟨b2, _⟩ := get_wf_bound _ hwf _ _ hg2
      obtain ⟨b3, _⟩ := get_wf_bound _ hwf _ _ hg3
      rw [← h]
      dsimp only
      rw [vector_length]
      exact ⟨b1, b2, b3⟩

theorem wf_reachable (vm : VertexMap) (h : Reachable vm) : WFMap vm := by
  induction h with
  | base => exact wf_new
  | step vm0 v _ ih => exact wf_add vm0 v ih

theorem get_append_self (vm : VertexMap) (v : Vector3D) (n : Nat)
    (hc : vm.containsKey v = false) (hn : hasNaN v = false) :
    VertexMap.get ⟨vm.entries ++ [(v, n)]⟩ v = some n := by
  rw [VertexMap.get]
  dsimp only
  rw [List.find?_append]
  have hall : ∀ p ∈ vm.entries, keyMatch p.1 v = false := by
    intro p hp
    cases hvv : keyMatch p.1 v with
    | false => rfl
    | true =>
      have hct : vm.containsKey v = true := (contains_iff vm v).mpr ⟨p, hp, hvv⟩
      rw [hc] at hct
      cases hct
  have h1 : vm.entries.find? (fun p => keyMatch p.1 v) = none :=
    List.find?_eq_none.mpr (fun p hp => by simp [hall p hp])
  rw [h1]
  simp [List.find?, keyMatch_refl v hn]

/-- The all-positive-zero vector (bit pattern 0 in every component). -/
def zeroVec : Vector3D := ⟨⟨0⟩, ⟨0⟩, ⟨0⟩⟩

/-- The vector whose components are all negative zero (bit 31 set). -/
def negZeroVec : Vector3D := ⟨⟨0x80000000⟩, ⟨0x80000000⟩, ⟨0x80000000⟩⟩

/-- A vector with value 1.0 in every component. -/
def oneVec : Vector3D := ⟨⟨0x3F800000⟩, ⟨0x3F800000⟩, ⟨0x3F800000⟩⟩

/-- An 80-byte binary-STL header filled with the ASCII letter X. -/
def headerX : List Nat := List.replicate 80 88

/-- The little-endian bytes of the f32 NaN pattern 0x7FC00000. -/
def nanBytes : List Nat := [0, 0, 192, 127]

/-- A complete 50-byte facet record whose first vertex has a NaN x
coordinate: 12 zero normal bytes, NaN + 8 zero bytes for v1, zeros for
v2, v3 and the attribute word. -/
def nanRecord : List Nat :=
  List.replicate 12 0 ++ nanBytes ++ List.replicate 32 0 ++ [0, 0]

/-- A complete 50-byte facet record of all zero bytes. -/
def zeroRecord : List Nat := List.replicate 50 0

/-- Binary STL input: header, facet count 1, then one complete record
containing a NaN vertex coordinate. -/
def c7Input : List Nat := headerX ++ ([1, 0, 0, 0] ++ nanRecord)

/-- Binary STL input: header, facet count 1, then only 44 bytes of facet
data — the read of the z coordinate of the third vertex is truncated. -/
def c4Input : List Nat := headerX ++ ([1, 0, 0, 0] ++ List.replicate 44 0)

/-- Binary STL input: header, facet count 1, one all-zero record. -/
def w8Input : List Nat := headerX ++ ([1, 0, 0, 0] ++ zeroRecord)

/-- The mesh decoded from `w8Input`: one deduplicated vertex, one facet. -/
def w8Mesh : Mesh := ⟨[zeroVec], [⟨0, 0, 0⟩]⟩

/-- C1: the spec says Scale(v) multiplies and Translate(v) adds `v`
componentwise to every vertex.  In the source both `ScaleOperation::apply`
and `TranslateOperation::apply` consist of the same copy-pasted code,
mapping nalgebra's `rot.rotate(&v3)` over the vertices, so the two
operations compute the same function of `(v, mesh)` whatever the external
`rotate` does — they cannot be componentwise product and componentwise sum
respectively, which differ (e.g. at v = (2,2,2), vertex (1,1,1)). -/
theorem c1_scale_eq_translate (rotate : Vector3D → Vector3D → Vector3D)
    (v : Vector3D) (mesh : Mesh) :
    ScaleOperation.apply rotate v mesh = TranslateOperation.apply rotate v mesh := rfl

/-- C2 counterexample: the claim says Vector3D equality holds exactly when
the componentwise bit patterns agree.  The derived PartialEq used by the
code disagrees in both directions: the NaN sentinel vector has bit
patterns identical to itself yet compares unequal, while the +0 and -0
vectors have different bit patterns (and different hash inputs) yet
compare equal. -/
theorem c2_counterexample :
    vecEq nanVec nanVec = false ∧
    Vector3D.hashBits nanVec = Vector3D.hashBits nanVec ∧
    vecEq zeroVec negZeroVec = true ∧
    Vector3D.hashBits zeroVec ≠ Vector3D.hashBits negZeroVec := by
  refine ⟨by decide, rfl, by decide, by decide⟩

/-- C2 amended: hashing is defined on the raw bit pattern of each
component (the hasher input is exactly the three bit words).  Equality is
the derived componentwise f32 comparison, not bit-pattern identity: two
vectors are equal iff neither has a NaN component and each component pair
has identical bits or consists of two (possibly differently signed)
zeros; a vector with a NaN component never equals itself. -/
theorem c2_amended (a b : Vector3D) :
    (Vector3D.hashBits a = Vector3D.hashBits b ↔
      a.x.bits = b.x.bits ∧ a.y.bits = b.y.bits ∧ a.z.bits = b.z.bits) ∧
    (vecEq a b = true ↔
      hasNaN a = false ∧ hasNaN b = false ∧
      (a.x.bits = b.x.bits ∨ (a.x.isZero = true ∧ b.x.isZero = true)) ∧
      (a.y.bits = b.y.bits ∨ (a.y.isZero = true ∧ b.y.isZero = true)) ∧
      (a.z.bits = b.z.bits ∨ (a.z.isZero = true ∧ b.z.isZero = true))) := by
  refine ⟨by simp [Vector3D.hashBits], ?_⟩
  simp only [vecEq, hasNaN, floatEq, Bool.and_eq_true, Bool.or_eq_true,
    Bool.not_eq_eq_eq_not, Bool.not_true, Bool.or_eq_false_iff, beq_iff_eq,
    Bool.not_eq_true']
  tauto

/-- C3 counterexample: the claim says add(v) is idempotent for any vertex
value including NaN.  Adding the NaN sentinel twice mints index 0 and then
index 1, and the cardinality grows from 1 to 2, because the derived
equality never finds a NaN key. -/
theorem c3_counterexample :
    (VertexMap.new.add nanVec).1 = 0 ∧
    (VertexMap.new.add nanVec).2.len = 1 ∧
    ((VertexMap.new.add nanVec).2.add nanVec).1 = 1 ∧
    ((VertexMap.new.add nanVec).2.add nanVec).2.len = 2 := by
  refine ⟨by decide, by decide, by decide, by decide⟩

/-- C3 amended: for every state of the deduplicator and every vertex value
v with no NaN component, two successive add(v) calls return the same
index and the second call leaves the cardinality unchanged.  (For a
NaN-component v the second call mints a fresh index and grows the map.) -/
theorem c3_amended (vm : VertexMap) (v : Vector3D) (h : hasNaN v = false) :
    ((vm.add v).2.add v).1 = (vm.add v).1 ∧
    ((vm.add v).2.add v).2.len = (vm.add v).2.len := by
  by_cases hc : vm.containsKey v
  · rw [add_of_contains vm v hc]
    dsimp only
    rw [add_of_contains vm v hc]
    exact ⟨rfl, rfl⟩
  · rw [add_of_not_contains vm v (by simpa using hc)]
    dsimp only
    have hc2 : VertexMap.containsKey ⟨vm.entries ++ [(v, vm.len)]⟩ v = true := by
      rw [contains_iff]
      exact ⟨(v, vm.len), by simp, keyMatch_refl v h⟩
    rw [add_of_contains ⟨vm.entries ++ [(v, vm.len)]⟩ v hc2]
    dsimp only
    rw [get_append_self vm v vm.len (by simpa using hc) h]
    exact ⟨rfl, rfl⟩

/-- C3 witness: a concrete instance of the amended idempotence at a fresh
non-NaN vertex. -/
theorem c3_witness :
    ((VertexMap.new.add oneVec).2.add oneVec).1 = (VertexMap.new.add oneVec).1 ∧
    ((VertexMap.new.add oneVec).2.add oneVec).2.len = (VertexMap.new.add oneVec).2.len :=
  c3_amended VertexMap.new oneVec (by decide)

/-- C4 counterexample: the claim says a decode whose only defect is a
masked per-vertex float read still completes and yields a mesh.  On a
stream with a valid header, facet count 1 and a facet truncated inside
its vertex floats (44 of 50 bytes), the vertex read is indeed masked to
the NaN sentinel, but the decode then panics at the unguarded u16
attribute read — it yields no mesh. -/
theorem c4_counterexample : Mesh.read c4Input = none := by decide

/-- C4 amended: Vector3D::read masks a truncated component read by
returning the all-NaN sentinel instead of an error, but the masking is
not non-fatal for the decode: a facet record with fewer than its full 50
bytes (in particular one truncated inside the per-vertex floats) always
makes the trailing unguarded u16 attribute read fail, so StlFacet::read
panics and the decode aborts. -/
theorem c4_amended :
    (∀ s : List Nat, s.length < 12 → (Vector3D.read s).1 = nanVec) ∧
    (∀ s : List Nat, s.length < 50 → StlFacet.read s = none) := by
  constructor
  · intro s h
    rw [vread_fail s h]
  · intro s h
    exact sfread_fail s h

/-- C4 witness: the sentinel on an empty stream and the panic on a
44-byte facet record. -/
theorem c4_witness :
    (Vector3D.read []).1 = nanVec ∧ StlFacet.read (List.replicate 44 0) = none :=
  ⟨c4_amended.1 [] (by decide), c4_amended.2 (List.replicate 44 0) (by decide)⟩

/-- C5: if fewer than 4 bytes remain after the header, the u32
facet-count read fails, the count is masked to 0, and the binary decode
completes with an empty mesh (zero facets) instead of aborting. -/
theorem c5_count_masked (s : List Nat) (h : s.length < 4) :
    Mesh.read_binary s = some ⟨[], []⟩ :=
  read_binary_short s h

/-- C5 witness: the facet-count read on a two-byte stream. -/
theorem c5_witness : Mesh.read_binary [1, 2] = some ⟨[], []⟩ :=
  c5_count_masked [1, 2] (by decide)

/-- C6 counterexample: the claim says every input of fewer than 80 bytes
decodes to an empty mesh and never panics.  A one-byte stream containing
0xFF is read into the zero-initialized 80-byte buffer, whose contents are
then not valid UTF-8, and the header decode's unwrap panics: the decode
yields no mesh at all. -/
theorem c6_counterexample : Mesh.read [255] = none := by decide

/-- C6 amended: a short input is not rejected early; the partial read
leaves the rest of the 80-byte buffer zero-filled and decoding continues.
For every input of fewer than 80 bytes whose zero-padded buffer is valid
UTF-8, the decode yields the empty mesh (via the ASCII stub or a failed
facet-count read); when the padded buffer is not valid UTF-8 the header
decode panics instead. -/
theorem c6_amended (s : List Nat) (hlen : s.length < 80)
    (hv : validUtf8 (s ++ List.replicate (80 - s.length) 0) = true) :
    Mesh.read s = some ⟨[], []⟩ :=
  mesh_read_short_valid s hlen hv

/-- C6 witness: a one-byte ASCII input decodes to the empty mesh. -/
theorem c6_witness : Mesh.read [104] = some ⟨[], []⟩ :=
  c6_amended [104] (by decide) (by decide)

/-- C7 counterexample: the claim says N complete facet records decode to
a mesh with N facets.  A complete, well-formed 50-byte record whose first
vertex has a NaN x coordinate is read and its vertex inserted into the
deduplicator, but the final index lookup can never find a NaN key under
the derived float equality, so the unwrap panics and no mesh is
produced. -/
theorem c7_counterexample : Mesh.read c7Input = none := by decide

/-- C7 amended: for every binary STL input with an 80-byte valid-UTF-8
header that does not begin with the ASCII sniff prefix, a facet count
equal to the number of records, and complete 50-byte facet records none
of whose nine vertex coordinates is NaN, the decode yields a mesh with
exactly one facet per record, in stream order: facet i resolves, index
by index, to vertex positions equal to the vertices of record i. -/
theorem c7_amended (header cb : List Nat) (recs : List (List Nat))
    (hh : header.length = 80) (hv : validUtf8 header = true)
    (hp : solidBytes.isPrefixOf header = false)
    (hc4 : cb.length = 4) (hcv : leVal cb = recs.length)
    (hlen : ∀ r ∈ recs, r.length = 50)
    (hnn : ∀ r ∈ recs, facetNoNaN (parseFacet r)) :
    ∃ m, Mesh.read (header ++ (cb ++ recs.flatten)) = some m ∧
      m.facets.length = recs.length ∧
      List.Forall₂ (facetMatches m) m.facets (recs.map parseFacet) := by
  obtain ⟨m, hm, hlen2, hfa⟩ := read_binary_records cb recs hc4 hcv hlen hnn
  refine ⟨m, ?_, hlen2, hfa⟩
  have hne : header ++ (cb ++ recs.flatten) ≠ [] := by
    intro hcontra
    have hL := congrArg List.length hcontra
    simp [hh] at hL
  rw [mesh_read_ne _ hne]
  have htake : (header ++ (cb ++ recs.flatten)).take 80 = header := by
    rw [List.take_append_of_le_length (by omega), List.take_of_length_le (by omega)]
  rw [htake, hh]
  have hbuf : header ++ List.replicate (80 - 80) 0 = header := by
    norm_num
  rw [hbuf, if_pos hv, if_neg (by simp [hp])]
  rw [List.drop_append_of_le_length (by omega), List.drop_eq_nil_of_le (by omega),
    List.nil_append]
  exact hm

/-- C7 witness: the amended decode theorem at a concrete one-record
input (header of X bytes, count 1, all-zero record). -/
theorem c7_witness :
    ∃ m, Mesh.read (headerX ++ ([1, 0, 0, 0] ++ [zeroRecord].flatten)) = some m ∧
      m.facets.length = [zeroRecord].length ∧
      List.Forall₂ (facetMatches m) m.facets ([zeroRecord].map parseFacet) :=
  c7_amended headerX [1, 0, 0, 0] [zeroRecord] (by decide) (by decide) (by decide)
    (by decide) (by decide) (by decide)
    (by
      intro r hr
      rw [List.mem_singleton] at hr
      subst hr
      exact ⟨by decide, by decide, by decide⟩)

/-- C8: every mesh produced by the decode path has all three vertex
indices of every facet strictly below the length of its vertex list:
the indices come from successful deduplicator lookups, whose values are
positions in the entry list, and the vertex list has one slot per
entry. -/
theorem c8_decoded_bounds (s : List Nat) (m : Mesh) (h : Mesh.read s = some m) :
    ∀ fac ∈ m.facets, fac.v1 < m.vertices.length ∧ fac.v2 < m.vertices.length ∧
      fac.v3 < m.vertices.length := by
  cases s with
  | nil =>
    rw [show Mesh.read [] = some ⟨[], []⟩ from rfl] at h
    simp only [Option.some.injEq] at h
    rw [← h]
    intro fac hm
    simp at hm
  | cons b tl =>
    rw [mesh_read_ne (b :: tl) (by simp)] at h
    by_cases hv : validUtf8 ((b :: tl).take 80 ++
        List.replicate (80 - ((b :: tl).take 80).length) 0) = true
    · rw [if_pos hv] at h
      by_cases hp : solidBytes.isPrefixOf ((b :: tl).take 80 ++
          List.replicate (80 - ((b :: tl).take 80).length) 0) = true
      · rw [if_pos hp] at h
        simp only [Option.some.injEq] at h
        rw [← h]
        intro fac hm
        simp at hm
      · rw [if_neg hp] at h
        exact read_binary_bound _ m h
    · rw [if_neg hv] at h
      simp at h

/-- C8 witness: the bounds at the facet of the concrete decoded
one-facet mesh. -/
theorem c8_witness :
    (Facet.mk 0 0 0).v1 < w8Mesh.vertices.length ∧
    (Facet.mk 0 0 0).v2 < w8Mesh.vertices.length ∧
    (Facet.mk 0 0 0).v3 < w8Mesh.vertices.length :=
  c8_decoded_bounds w8Input w8Mesh (by decide) ⟨0, 0, 0⟩ (by decide)

/-- C9: for every deduplicator state reachable through the API, vector()
has exactly len() entries, and a fresh (not yet contained) vertex value
v is assigned index len() by add, after which vector() is the old
sequence with v appended at that index — so position i always holds the
value that was assigned index i. -/
theorem c9_vector_order (vm : VertexMap) (hr : Reachable vm) :
    vm.vector.length = vm.len ∧
    ∀ v : Vector3D, vm.containsKey v = false →
      (vm.add v).1 = vm.len ∧ (vm.add v).2.vector = vm.vector ++ [v] := by
  have hw : WFMap vm := wf_reachable vm hr
  refine ⟨vector_length vm, ?_⟩
  intro v hcv
  constructor
  · rw [add_of_not_contains vm v hcv]
  · rw [add_of_not_contains vm v hcv]
    dsimp only
    have hw2 : WFMap (⟨vm.entries ++ [(v, vm.len)]⟩ : VertexMap) := by
      have hwa := wf_add vm v hw
      rw [add_of_not_contains vm v hcv] at hwa
      exact hwa
    rw [vector_wf _ hw2, vector_wf vm hw]
    dsimp only
    rw [List.map_append]
    rfl

/-- C9 witness: the ordering property at the concrete one-entry state. -/
theorem c9_witness :
    (VertexMap.new.add zeroVec).2.vector.length = (VertexMap.new.add zeroVec).2.len ∧
    ((VertexMap.new.add zeroVec).2.add oneVec).1 = (VertexMap.new.add zeroVec).2.len ∧
    ((VertexMap.new.add zeroVec).2.add oneVec).2.vector =
      (VertexMap.new.add zeroVec).2.vector ++ [oneVec] := by
  have h := c9_vector_order (VertexMap.new.add zeroVec).2
    (Reachable.step VertexMap.new zeroVec Reachable.base)
  exact ⟨h.1, (h.2 oneVec (by decide)).1, (h.2 oneVec (by decide)).2⟩

/-- C10 counterexample: the claim says get(v) succeeds whenever some key
equal to v under Vector3D equality is present.  A deduplicator holding
only the all-positive-zero vector, probed with the all-negative-zero
vector, holds an eq-equal key (+0.0 == -0.0 componentwise) — yet the
probe feeds different raw bit words to the hasher, the hash gate never
reaches the stored key, and get returns no index (the unwrap panics). -/
theorem c10_counterexample :
    vecEq zeroVec negZeroVec = true ∧
    (VertexMap.new.add zeroVec).2.entries = [(zeroVec, 0)] ∧
    VertexMap.get (VertexMap.new.add zeroVec).2 negZeroVec = none := by
  refine ⟨by decide, by decide, by decide⟩

/-- C10 amended: get is partial and its probe is gated by the hash as
well as by equality: get(v) returns an index without failing iff some
stored key passes the probe test for v — identical raw component bit
patterns (the hash gate) and equality under the derived PartialEq.  A
merely eq-equal key with different bit patterns (a differently signed
zero) is missed, and a vector with a NaN component passes no probe test,
so in both cases get panics (unwrap of None). -/
theorem c10_amended (vm : VertexMap) (v : Vector3D) :
    ((∃ i, vm.get v = some i) ↔ ∃ p ∈ vm.entries, keyMatch p.1 v = true) ∧
    (hasNaN v = true → vm.get v = none) := by
  constructor
  · constructor
    · rintro ⟨i, hi⟩
      obtain ⟨p, hp, _, he⟩ := get_mem vm v i hi
      exact ⟨p, hp, he⟩
    · rintro ⟨p, hp, he⟩
      exact get_of_contains vm v ((contains_iff vm v).mpr ⟨p, hp, he⟩)
  · intro hn
    apply get_none_of_not_contains
    cases hcv : vm.containsKey v with
    | false => rfl
    | true =>
      obtain ⟨p, hp, he⟩ := (contains_iff vm v).mp hcv
      rw [keyMatch_nan_right p.1 v hn] at he
      cases he

/-- C10 witness: get of the NaN sentinel on a nonempty map panics. -/
theorem c10_witness : VertexMap.get (VertexMap.new.add zeroVec).2 nanVec = none :=
  (c10_amended (VertexMap.new.add zeroVec).2 nanVec).2 (by decide)
